import Mathlib

/-!
Shallow embedding of the device allocator in
src/xgboost/parallel-hp-tuning-with-gpus.ipynb (class Objective):
the counter array gpu_status, the method get_next_gpu (acquire), the
release statement gpu_status[gpu_id] -= 1 in Objective.call, and the
call body itself as far as it touches the counters.
-/

namespace HPAlloc

/-- Embeds the inner helper of Objective.get_next_gpu:

    def find_gpu(min_stat=0):
        next_gpu = None
        for gpu_id, stat in enumerate(self.gpu_status):
            if stat <= min_stat:
                next_gpu = gpu_id
                break
        return next_gpu

Returns the first (lowest) index whose counter is at most min_stat, or
none when no counter qualifies.  Counters are Python ints, embedded as
Int (release can drive them negative). -/
def find_gpu (min_stat : Int) : List Int → Option Nat
  | [] => none
  | stat :: rest =>
    if stat ≤ min_stat then some 0
    else
      match find_gpu min_stat rest with
      | some g => some (g + 1)
      | none => none

/-- Embeds the while loop of get_next_gpu:

    next_gpu = None
    min_stat = 0
    while(next_gpu is None):
        next_gpu = find_gpu(min_stat=min_stat + 1)

min_stat is never reassigned in the loop body, so every iteration calls
find_gpu with threshold 0 + 1 = 1 on the unchanged gpu_status; the loop is
embedded with explicit fuel, none meaning that it has not produced a
device within fuel iterations (and, since the iterations are identical,
that it never does). -/
def get_next_gpu_loop (gs : List Int) : Nat → Option Nat
  | 0 => none
  | fuel + 1 =>
    match find_gpu 1 gs with
    | some g => some g
    | none => get_next_gpu_loop gs fuel

/-- The statement gpu_status[next_gpu] += 1 at a valid non-negative index. -/
def incAt (gs : List Int) (i : Nat) : List Int :=
  gs.set i (gs.getD i 0 + 1)

/-- The statement gpu_status[gpu_id] -= 1 at a valid non-negative index. -/
def decAt (gs : List Int) (i : Nat) : List Int :=
  gs.set i (gs.getD i 0 - 1)

/-- Embeds Objective.get_next_gpu as a whole: run the loop, then increment
the chosen counter and return the chosen device id together with the updated
counter list.  none means the loop did not terminate within fuel. -/
def get_next_gpu (fuel : Nat) (gs : List Int) : Option (Nat × List Int) :=
  match get_next_gpu_loop gs fuel with
  | some g => some (g, incAt gs g)
  | none => none

/-- Embeds the release statement in Objective.call,

    self.gpu_status[gpu_id] -= 1

for an arbitrary Python int gpu_id, with Python list-subscript semantics:
an index i with 0 <= i < len is used directly, a negative i with
-len <= i counts from the end of the list, and any other index raises
IndexError (embedded as Except.error ()), leaving the list unchanged. -/
def release (gs : List Int) (i : Int) : Except Unit (List Int) :=
  if 0 ≤ i ∧ i < (gs.length : Int) then Except.ok (decAt gs i.toNat)
  else if 0 ≤ i + (gs.length : Int) ∧ i < 0 then
    Except.ok (decAt gs (i + (gs.length : Int)).toNat)
  else Except.error ()

/-- Embeds the counter-relevant part of Objective.call with use_gpus = True:
gpu_id = self.get_next_gpu(); then the external xgboost fit/score calls run
(modelled by the oracle fit_raises telling whether they raise); the decrement
self.gpu_status[gpu_id] -= 1 runs only on normal completion, because the body
has no try/finally — an exception propagates out before the decrement line.
Result: the final counter list and whether the trial completed normally;
none means get_next_gpu did not return within fuel. -/
def objective_call (fuel : Nat) (fit_raises : Bool) (gs : List Int) :
    Option (List Int × Bool) :=
  match get_next_gpu fuel gs with
  | none => none
  | some (g, gs') =>
    if fit_raises then some (gs', false)
    else some (decAt gs' g, true)

/-- Allocator state for reasoning about interleaved call sequences: the
counter list gpu_status together with the multiset (as a list) of device ids
currently acquired and not yet released. -/
structure PoolState where
  gs : List Int
  leases : List Nat
deriving DecidableEq

/-- The state right after Objective.init with num_gpus = n:
gpu_status = [0 for _ in range(n)], no outstanding lease. -/
def initState (n : Nat) : PoolState :=
  ⟨List.replicate n 0, []⟩

/-- One allocator call as Objective.call performs them: an acquire step is a
terminating get_next_gpu call (the loop body succeeds, i.e. find_gpu at
threshold 1 finds a device) which increments the chosen counter and records
the lease; a release step decrements the counter of a device id previously
returned by a matching unreleased acquire. -/
inductive Step : PoolState → PoolState → Prop where
  | acquire (s : PoolState) (g : Nat) (h : find_gpu 1 s.gs = some g) :
      Step s ⟨incAt s.gs g, g :: s.leases⟩
  | release (s : PoolState) (g : Nat) (h : g ∈ s.leases) :
      Step s ⟨decAt s.gs g, s.leases.erase g⟩

/-! Helper lemmas about list update, the search helper and the loop. -/

theorem getD_set_self (gs : List Int) (g : Nat) (v : Int) (h : g < gs.length) :
    (gs.set g v).getD g 0 = v := by
  induction gs generalizing g with
  | nil => simp at h
  | cons a rest ih =>
    cases g with
    | zero => simp
    | succ g => simpa using ih g (by simpa using h)

theorem getD_set_ne (gs : List Int) (g i : Nat) (v : Int) (hne : i ≠ g) :
    (gs.set g v).getD i 0 = gs.getD i 0 := by
  induction gs generalizing g i with
  | nil => simp
  | cons a rest ih =>
    cases g with
    | zero =>
      cases i with
      | zero => exact absurd rfl hne
      | succ i => simp
    | succ g =>
      cases i with
      | zero => simp
      | succ i => simpa using ih g i (fun hc => hne (by simpa using hc))

theorem sum_set (gs : List Int) (g : Nat) (v : Int) (h : g < gs.length) :
    (gs.set g v).sum = gs.sum - gs.getD g 0 + v := by
  induction gs generalizing g with
  | nil => simp at h
  | cons a rest ih =>
    cases g with
    | zero => simp; ring
    | succ g =>
      have := ih g (by simpa using h)
      simp [this]; ring

theorem set_getD_self (gs : List Int) (g : Nat) : gs.set g (gs.getD g 0) = gs := by
  induction gs generalizing g with
  | nil => rfl
  | cons a rest ih =>
    cases g with
    | zero => simp
    | succ g =>
      show a :: rest.set g (rest.getD g 0) = a :: rest
      rw [ih g]

theorem getD_eq_zero_of_le (gs : List Int) (i : Nat) (h : gs.length ≤ i) :
    gs.getD i 0 = 0 := by
  simp [List.getD_eq_getElem?_getD, List.getElem?_eq_none h]

theorem find_gpu_lt_length (m : Int) (gs : List Int) (g : Nat)
    (h : find_gpu m gs = some g) : g < gs.length := by
  induction gs generalizing g with
  | nil => simp [find_gpu] at h
  | cons a rest ih =>
    rw [find_gpu] at h
    split at h
    · cases h; simp
    · cases hr : find_gpu m rest with
      | none => rw [hr] at h; cases h
      | some g' =>
        rw [hr] at h; cases h
        simpa using Nat.succ_lt_succ (ih g' hr)

theorem find_gpu_le (m : Int) (gs : List Int) (g : Nat)
    (h : find_gpu m gs = some g) : gs.getD g 0 ≤ m := by
  induction gs generalizing g with
  | nil => simp [find_gpu] at h
  | cons a rest ih =>
    rw [find_gpu] at h
    split at h
    · cases h; simpa
    · cases hr : find_gpu m rest with
      | none => rw [hr] at h; cases h
      | some g' => rw [hr] at h; cases h; simpa using ih g' hr

theorem find_gpu_first (m : Int) (gs : List Int) (g : Nat)
    (h : find_gpu m gs = some g) : ∀ j, j < g → m < gs.getD j 0 := by
  induction gs generalizing g with
  | nil => simp [find_gpu] at h
  | cons a rest ih =>
    rw [find_gpu] at h
    split at h
    · cases h; intro j hj; exact absurd hj (Nat.not_lt_zero j)
    · cases hr : find_gpu m rest with
      | none => rw [hr] at h; cases h
      | some g' =>
        rw [hr] at h; cases h
        intro j hj
        cases j with
        | zero => simpa using lt_of_not_ge (by assumption)
        | succ j => simpa using ih g' hr j (by omega)

theorem get_next_gpu_loop_some (gs : List Int) (fuel : Nat) (g : Nat)
    (h : get_next_gpu_loop gs fuel = some g) : find_gpu 1 gs = some g := by
  induction fuel with
  | zero => simp [get_next_gpu_loop] at h
  | succ fuel ih =>
    rw [get_next_gpu_loop] at h
    cases hf : find_gpu 1 gs with
    | some g' => rw [hf] at h; exact h
    | none =>
      rw [hf] at h
      have := ih h
      rw [hf] at this
      exact this

theorem get_next_gpu_loop_none (gs : List Int) (h : find_gpu 1 gs = none) :
    ∀ fuel, get_next_gpu_loop gs fuel = none := by
  intro fuel
  induction fuel with
  | zero => rfl
  | succ fuel ih => rw [get_next_gpu_loop, h]; exact ih

theorem get_next_gpu_some (fuel : Nat) (gs : List Int) (g : Nat) (gs' : List Int)
    (h : get_next_gpu fuel gs = some (g, gs')) :
    find_gpu 1 gs = some g ∧ gs' = incAt gs g := by
  rw [get_next_gpu] at h
  cases hl : get_next_gpu_loop gs fuel with
  | none => rw [hl] at h; cases h
  | some g0 =>
    rw [hl] at h
    have h' : g0 = g ∧ incAt gs g0 = gs' := by simpa using h
    obtain ⟨hg, hgs⟩ := h'
    subst hg
    exact ⟨get_next_gpu_loop_some gs fuel _ hl, hgs.symm⟩

/-- Book-keeping invariant tying the counter list to the outstanding leases:
every leased id is a valid index, every counter equals the number of
outstanding leases on that device, and the total equals the number of
outstanding leases. -/
def Accounted (s : PoolState) : Prop :=
  (∀ g ∈ s.leases, g < s.gs.length) ∧
  (∀ i, i < s.gs.length → s.gs.getD i 0 = (s.leases.count i : Int)) ∧
  s.gs.sum = (s.leases.length : Int)

theorem accounted_init (n : Nat) : Accounted (initState n) := by
  refine ⟨by simp [initState], fun i hi => ?_, by simp [initState]⟩
  simp only [initState] at hi ⊢
  rw [List.getD_eq_getElem?_getD, List.getElem?_replicate]
  simp at hi
  simp [hi]

theorem accounted_step (s t : PoolState) (hst : Step s t) (h : Accounted s) :
    Accounted t := by
  obtain ⟨hb, hc, hs⟩ := h
  cases hst with
  | acquire g hg =>
    have hlt : g < s.gs.length := find_gpu_lt_length 1 s.gs g hg
    have hlen : (incAt s.gs g).length = s.gs.length := by
      simp [incAt, List.length_set]
    refine ⟨?_, ?_, ?_⟩
    · intro x hx
      rw [hlen]
      rcases List.mem_cons.mp hx with hxg | hxl
      · exact hxg ▸ hlt
      · exact hb x hxl
    · intro i hi
      rw [hlen] at hi
      by_cases hig : i = g
      · subst hig
        rw [incAt, getD_set_self s.gs i _ hlt, hc i hi, List.count_cons_self]
        push_cast
        ring
      · rw [incAt, getD_set_ne s.gs g i _ hig, hc i hi,
          List.count_cons_of_ne hig]
    · have : (incAt s.gs g).sum = s.gs.sum + 1 := by
        rw [incAt, sum_set s.gs g _ hlt]; ring
      rw [this, hs]
      simp
  | release g hg =>
    have hlt : g < s.gs.length := hb g hg
    have hcount : 0 < s.leases.count g := List.count_pos_iff.mpr hg
    have hlen : (decAt s.gs g).length = s.gs.length := by
      simp [decAt, List.length_set]
    refine ⟨?_, ?_, ?_⟩
    · intro x hx
      rw [hlen]
      exact hb x (List.mem_of_mem_erase hx)
    · intro i hi
      rw [hlen] at hi
      by_cases hig : i = g
      · subst hig
        rw [decAt, getD_set_self s.gs i _ hlt, hc i hi, List.count_erase_self]
        rw [Nat.cast_sub hcount]
        simp
      · rw [decAt, getD_set_ne s.gs g i _ hig, hc i hi,
          List.count_erase_of_ne hig]
    · have hsum : (decAt s.gs g).sum = s.gs.sum - 1 := by
        rw [decAt, sum_set s.gs g _ hlt]; ring
      have hlenerase : s.leases.length = (s.leases.erase g).length + 1 :=
        (List.length_erase_add_one hg).symm
      rw [hsum, hs, hlenerase]
      push_cast
      ring

theorem accounted_reach (n : Nat) (s : PoolState)
    (h : Relation.ReflTransGen Step (initState n) s) : Accounted s := by
  induction h with
  | refl => exact accounted_init n
  | tail _ hstep ih => exact accounted_step _ _ hstep ih

/-- Counters stay at most 2 along any reachable state: acquire only picks a
device whose counter is at most 1 and release only decrements. -/
theorem capped_reach (n : Nat) (s : PoolState)
    (h : Relation.ReflTransGen Step (initState n) s) :
    ∀ i, s.gs.getD i 0 ≤ 2 := by
  induction h with
  | refl =>
    intro i
    simp only [initState]
    rw [List.getD_eq_getElem?_getD, List.getElem?_replicate]
    split <;> simp
  | tail _ hstep ih =>
    rename_i s' t _
    cases hstep with
    | acquire g hg =>
      intro i
      by_cases hig : i = g
      · subst hig
        by_cases hlt : i < s'.gs.length
        · rw [incAt, getD_set_self s'.gs i _ hlt]
          have := find_gpu_le 1 s'.gs i hg
          omega
        · rw [incAt]
          rw [getD_eq_zero_of_le _ i (by simp [List.length_set]; omega)]
          omega
      · rw [incAt, getD_set_ne s'.gs g i _ hig]
        exact ih i
    | release g hg =>
      intro i
      by_cases hig : i = g
      · subst hig
        by_cases hlt : i < s'.gs.length
        · rw [decAt, getD_set_self s'.gs i _ hlt]
          have := ih i
          omega
        · rw [decAt]
          rw [getD_eq_zero_of_le _ i (by simp [List.length_set]; omega)]
          omega
      · rw [decAt, getD_set_ne s'.gs g i _ hig]
        exact ih i

/-! Claim theorems. -/

/-- C1, counterexample: on counters [1, 0] the code returns device 0, whose
counter 1 is strictly larger than device 1's counter 0, so get_next_gpu does
not return a device with minimal in-flight counter. -/
theorem C1_counterexample :
    get_next_gpu 1 [1, 0] = some (0, [2, 0]) ∧
    ([1, 0] : List Int).getD 1 0 < ([1, 0] : List Int).getD 0 0 := by
  decide

/-- C1, amended: whenever get_next_gpu returns, it returns the lowest-indexed
device whose counter is at most 1 (every earlier device has counter above 1),
and increments exactly that device's counter; minimality among all counters
does not hold in general, though the spec's [2, 1, 1] instance (see the
witness) does return index 1. -/
theorem C1_amended (fuel : Nat) (gs : List Int) (g : Nat) (gs' : List Int)
    (h : get_next_gpu fuel gs = some (g, gs')) :
    gs.getD g 0 ≤ 1 ∧ (∀ j, j < g → 1 < gs.getD j 0) ∧ gs' = incAt gs g := by
  obtain ⟨hf, hgs⟩ := get_next_gpu_some fuel gs g gs' h
  exact ⟨find_gpu_le 1 gs g hf, find_gpu_first 1 gs g hf, hgs⟩

/-- Witness for C1_amended at the spec's instance: counters [2, 1, 1] give
device 1, whose counter is at most 1 while device 0's exceeds 1. -/
theorem C1_witness :
    get_next_gpu 1 [2, 1, 1] = some (1, [2, 2, 1]) ∧
    (([2, 1, 1] : List Int).getD 1 0 ≤ 1 ∧
      (∀ j, j < 1 → 1 < ([2, 1, 1] : List Int).getD j 0) ∧
      ([2, 2, 1] : List Int) = incAt [2, 1, 1] 1) := by
  have h : get_next_gpu 1 [2, 1, 1] = some (1, [2, 2, 1]) := by decide
  exact ⟨h, C1_amended 1 [2, 1, 1] 1 [2, 2, 1] h⟩

/-- C2, code bug: on a pool state where every counter is at least 2 (here
[3, 2]) the while loop in get_next_gpu never terminates, because min_stat is
never incremented and find_gpu is always called with threshold 1: no number
of loop iterations produces a device. -/
theorem C2_code_bug : ∀ fuel : Nat, get_next_gpu fuel [3, 2] = none := by
  intro fuel
  rw [get_next_gpu, get_next_gpu_loop_none [3, 2] (by decide) fuel]

/-- C3, code bug: releasing device 0 of a one-device pool whose counter is 0
(so the id is not currently leased) raises no error and drives the counter to
-1: the code performs a bare unchecked decrement instead of failing with
InvalidRelease and leaving the pool unchanged. -/
theorem C3_code_bug : release [0] 0 = Except.ok [-1] := rfl

/-- C4: along every sequence of interleaved acquire and release calls
(release only on a currently leased id), every counter stays non-negative and
at most the number of outstanding leases, and the counters sum to exactly the
number of outstanding leases. -/
theorem C4_invariant (n : Nat) (s : PoolState)
    (h : Relation.ReflTransGen Step (initState n) s) :
    (∀ i, i < s.gs.length →
      0 ≤ s.gs.getD i 0 ∧ s.gs.getD i 0 ≤ (s.leases.length : Int)) ∧
    s.gs.sum = (s.leases.length : Int) := by
  obtain ⟨hb, hc, hs⟩ := accounted_reach n s h
  refine ⟨fun i hi => ?_, hs⟩
  rw [hc i hi]
  exact ⟨Int.natCast_nonneg _, by exact_mod_cast List.count_le_length i s.leases⟩

/-- Witness for C4_invariant after one acquire on a two-device pool. -/
theorem C4_witness :
    (∀ i, i < (⟨[1, 0], [0]⟩ : PoolState).gs.length →
      0 ≤ (⟨[1, 0], [0]⟩ : PoolState).gs.getD i 0 ∧
      (⟨[1, 0], [0]⟩ : PoolState).gs.getD i 0 ≤
        ((⟨[1, 0], [0]⟩ : PoolState).leases.length : Int)) ∧
    (⟨[1, 0], [0]⟩ : PoolState).gs.sum =
      ((⟨[1, 0], [0]⟩ : PoolState).leases.length : Int) := by
  refine C4_invariant 2 ⟨[1, 0], [0]⟩ (Relation.ReflTransGen.single ?_)
  have h : Step (initState 2) ⟨incAt (initState 2).gs 0, 0 :: (initState 2).leases⟩ :=
    Step.acquire (initState 2) 0 (by decide)
  have e : (⟨incAt (initState 2).gs 0, 0 :: (initState 2).leases⟩ : PoolState) =
      ⟨[1, 0], [0]⟩ := by decide
  exact e ▸ h

/-- C5: acquire followed immediately by release of the id it returned is the
identity on the counter list (the decrement in Objective.call cancels the
increment in get_next_gpu). -/
theorem C5_roundtrip (fuel : Nat) (gs : List Int) (g : Nat) (gs' : List Int)
    (h : get_next_gpu fuel gs = some (g, gs')) :
    release gs' (g : Int) = Except.ok gs := by
  obtain ⟨hf, hgs⟩ := get_next_gpu_some fuel gs g gs' h
  have hlt : g < gs.length := find_gpu_lt_length 1 gs g hf
  subst hgs
  have hlen : (incAt gs g).length = gs.length := by simp [incAt, List.length_set]
  rw [release, if_pos (by rw [hlen]; omega)]
  congr 1
  rw [Int.toNat_natCast, decAt, incAt, getD_set_self gs g _ hlt, List.set_set]
  have : gs.getD g 0 + 1 - 1 = gs.getD g 0 := by ring
  rw [this, set_getD_self]

/-- Witness for C5_roundtrip: acquire on [1] returns device 0 with counters
[2], and releasing 0 restores [1]. -/
theorem C5_witness : release [2] 0 = Except.ok [1] := by
  have h := C5_roundtrip 1 [1] 0 [2] (by decide)
  simpa using h

/-- C6, code bug: on a one-device pool the first two acquires return device 0
with counters 1 then 2, but the third acquire never returns (for no number of
loop iterations does it produce a device), because with the counter at 2 the
loop keeps searching with threshold 1 forever; the claim instead expects
every Nth acquire to return 0 with counter N. -/
theorem C6_code_bug :
    get_next_gpu 1 [0] = some (0, [1]) ∧
    get_next_gpu 1 [1] = some (0, [2]) ∧
    ∀ fuel : Nat, get_next_gpu fuel [2] = none := by
  refine ⟨by decide, by decide, fun fuel => ?_⟩
  rw [get_next_gpu, get_next_gpu_loop_none [2] (by decide) fuel]

/-- C7, counterexample: from counters [0, 0] the first acquire returns 0
leaving [1, 0], and the second acquire returns device 0 again (counter 1 is
still at or below the fixed threshold 1), not device 1 as the claimed trace
[0, 1, 0] requires. -/
theorem C7_counterexample :
    get_next_gpu 1 [0, 0] = some (0, [1, 0]) ∧
    (get_next_gpu 1 [1, 0]).map Prod.fst = some 0 ∧
    (get_next_gpu 1 [1, 0]).map Prod.fst ≠ some 1 := by
  decide

/-- C7, amended: on a pool of size 2 the call sequence acquire, acquire,
acquire, release(first id) actually returns [0, 0, 1] (the first two both
pick device 0) and leaves counters [1, 1] after the release. -/
theorem C7_amended :
    get_next_gpu 1 [0, 0] = some (0, [1, 0]) ∧
    get_next_gpu 1 [1, 0] = some (0, [2, 0]) ∧
    get_next_gpu 1 [2, 0] = some (1, [2, 1]) ∧
    release [2, 1] 0 = Except.ok [1, 1] := by
  exact ⟨by decide, by decide, by decide, rfl⟩

/-- C8, code bug: the body of Objective.call has no try/finally, so when the
external fit/score raises, the exception propagates before the decrement
line: a faulted trial on pool [0] leaves the counter at 1 (lease leaked),
while a successful trial restores it to 0. -/
theorem C8_code_bug :
    objective_call 1 true [0] = some ([1], false) ∧
    objective_call 1 false [0] = some ([0], true) := by
  exact ⟨rfl, rfl⟩

/-- C9: whenever get_next_gpu returns, the selected device's counter was at
most 1 before the increment and at most 2 after it, every other counter is
unchanged, and along every sequence of acquire/release calls from a fresh
pool of any size, every counter stays at most 2. -/
theorem C9_cap (fuel : Nat) (gs : List Int) (g : Nat) (gs' : List Int)
    (h : get_next_gpu fuel gs = some (g, gs')) :
    gs.getD g 0 ≤ 1 ∧ gs'.getD g 0 ≤ 2 ∧
    (∀ i, i ≠ g → gs'.getD i 0 = gs.getD i 0) ∧
    (∀ n s, Relation.ReflTransGen Step (initState n) s →
      ∀ i, s.gs.getD i 0 ≤ 2) := by
  obtain ⟨hf, hgs⟩ := get_next_gpu_some fuel gs g gs' h
  have hle := find_gpu_le 1 gs g hf
  have hlt : g < gs.length := find_gpu_lt_length 1 gs g hf
  subst hgs
  refine ⟨hle, ?_, ?_, capped_reach⟩
  · rw [incAt, getD_set_self gs g _ hlt]
    omega
  · intro i hig
    rw [incAt, getD_set_ne gs g i _ hig]

/-- Witness for C9_cap: acquire on [1] picks device 0 (counter 1, at most the
threshold), leaving [2]. -/
theorem C9_witness :
    ([1] : List Int).getD 0 0 ≤ 1 ∧ ([2] : List Int).getD 0 0 ≤ 2 ∧
    (∀ i, i ≠ 0 → ([2] : List Int).getD i 0 = ([1] : List Int).getD i 0) ∧
    (∀ n s, Relation.ReflTransGen Step (initState n) s →
      ∀ i, s.gs.getD i 0 ≤ 2) :=
  C9_cap 1 [1] 0 [2] (by decide)

/-- C10: on any non-empty pool, the release statement applied to device id -1
raises no error: by Python negative indexing it decrements the counter of the
last device in the pool, mis-accounting that device's load. -/
theorem C10_neg_release (gs : List Int) (h : gs ≠ []) :
    release gs (-1) = Except.ok (decAt gs (gs.length - 1)) := by
  have hlen : 0 < gs.length := List.length_pos.mpr h
  rw [release, if_neg (by omega), if_pos (by constructor <;> omega)]
  have e : ((-1 : Int) + (gs.length : Int)).toNat = gs.length - 1 := by omega
  rw [e]

/-- Witness for C10_neg_release: releasing id -1 on counters [5, 7] silently
decrements the last device, giving [5, 6]. -/
theorem C10_witness : release [5, 7] (-1) = Except.ok [5, 6] := by
  rw [C10_neg_release [5, 7] (by decide)]
  rfl

end HPAlloc
